import Mathlib

/-!
# Verification of the analog-year selection model (`src/vv/model.py`)

Shallow embedding of the `CorrelacaoAmplitude` model and of the helper
`calc_corr_last12`.  Conventions of the embedding:

* A cell of the monthly series is `Option ℚ`: `none` models a missing value
  (pandas `NaN`); `some q` a finite float, idealized as an exact rational.
* A `pd.Period` (monthly frequency) is a `Nat`: the absolute month count.
  Calendar month (0 = January .. 11 = December) is `p % 12`; calendar year is
  `p / 12`.  A DataFrame with a contiguous monthly `PeriodIndex` is `DF`:
  a start period plus column-major cell lists (`calc_corr_last12`'s index-kind
  check always passes on this representation, so it is not modelled).
* Pearson correlations are `num / Real.sqrt (dx * dy)` with rational
  `num`, `dx`, `dy`.  To stay inside executable rational arithmetic the table
  stores the order-isomorphic *signed square* `num * |num| / (dx * dy) : ℚ`
  instead (the map `x ↦ x * |x|` is strictly monotone, so sort order, ties,
  and the value `1` are represented exactly; `NaN` — an incomplete window, a
  window containing a missing value, or a zero variance — is `none`).
* `sort_values(ascending=False)` is modelled as a stable descending sort with
  `NaN` placed last, ties broken by the chronological row order.
* Ratios `candidato / df_base.iloc[-1]` follow float semantics: `x / 0` is
  `+inf`/`-inf`/`NaN` according to the sign of `x`; these are the `ERat`
  values.  The mask `(0 < r) & (r < inf)` therefore keeps exactly the
  strictly positive finite ratios.
* Exceptions are `Except`: `FitError.keyError` is the pandas `KeyError`
  raised by `df_base.loc[_period + 1]` when the label is past the end, and
  `FitError.posicaoNone` is the uncontrolled `TypeError` raised by
  `top_corr.iloc[self.posicao_]` when the candidate loop exhausted without a
  break (`posicao_` still `None`); it carries the rejection records that the
  object holds at that point.
-/

namespace VV

/-- A cell value: `none` is pandas `NaN`. -/
abbrev Val := Option ℚ

/-- A monthly DataFrame: absolute start period, row count, column-major cells.
`Wf` states every column has `nrows` cells. -/
structure DF where
  start : Nat
  nrows : Nat
  cols : List (List Val)
deriving DecidableEq

/-- Well-formedness: each column holds exactly `nrows` cells. -/
def DF.Wf (df : DF) : Prop := ∀ c ∈ df.cols, c.length = df.nrows

/-- Cell of column `j` at row `i` (missing positions read as `NaN`). -/
def DF.cell (df : DF) (j i : Nat) : Val := (df.cols.getD j []).getD i none

/-- Calendar month (0..11) of an absolute period. -/
def monthOf (p : Nat) : Nat := p % 12

/-- Calendar year of an absolute period. -/
def yearOf (p : Nat) : Nat := p / 12

/-- Period of the last row (`df_base.index[-1]`). -/
def DF.lastPeriod (df : DF) : Nat := df.start + df.nrows - 1

/-- Calendar month of the last row. -/
def DF.finalMonth (df : DF) : Nat := monthOf df.lastPeriod

/-! ## `calc_corr_last12` (lines 9-47)

`df_trecho = df_ref.iloc[-12:]` is the reference window; the loop
`for month in range(1, 13): df_other[month mask] = trecho row of that month`
broadcasts the reference window over the whole history by calendar month.
The code numbers months 1..12; the embedding uses the equivalent 0..11. -/

/-- Row position, inside the last-12 window of a column of length `n`, whose
calendar month is `m` (the row `df_trecho[df_trecho.index.month == month].iloc[0]`). -/
def trechoIdx (start n m : Nat) : Nat :=
  (n - 12) + ((m + 12 - (start + (n - 12)) % 12) % 12)

/-- Value of the reference-window row of calendar month `m`. -/
def trechoVal (start : Nat) (c : List Val) (m : Nat) : Val :=
  c.getD (trechoIdx start c.length m) none

/-- One masked assignment `df_other[df_other.index.month == month] = trecho_row`,
walking a column from row index `i`. -/
def bMonthGo (start : Nat) (tv : Val) (m : Nat) : Nat → List Val → List Val
  | _, [] => []
  | i, v :: vs =>
    (if (start + i) % 12 = m then tv else v) :: bMonthGo start tv m (i + 1) vs

/-- Masked assignment over a whole column: rows of month `m` receive the
reference-window value of month `m` (taken from the unmutated copy `cref`). -/
def bMonth (start : Nat) (cref cur : List Val) (m : Nat) : List Val :=
  bMonthGo start (trechoVal start cref m) m 0 cur

/-- The `for month in range(1, 13)` loop: the fully broadcast column `df_other`. -/
def broadcastCol (start : Nat) (c : List Val) : List Val :=
  (List.range 12).foldl (fun cur m => bMonth start c cur m) c

/-- All-present check: a window evaluates only if every cell is `some`. -/
def allVals : List Val → Option (List ℚ)
  | [] => some []
  | none :: _ => none
  | some q :: vs => (allVals vs).map (fun qs => q :: qs)

/-- Pearson correlation of two 12-element samples, stored as the
order-isomorphic signed square `num * |num| / (dx * dy)`; `none` when a
variance vanishes (pandas yields `NaN` there). -/
def corrOf (xs ys : List ℚ) : Option ℚ :=
  let sx := xs.sum
  let sy := ys.sum
  let sxy := (xs.zipWith (· * ·) ys).sum
  let sxx := (xs.map (fun a => a * a)).sum
  let syy := (ys.map (fun a => a * a)).sum
  let num := 12 * sxy - sx * sy
  let dx := 12 * sxx - sx * sx
  let dy := 12 * syy - sy * sy
  if dx * dy = 0 then none else some (num * |num| / (dx * dy))

/-- The 12 cells of the rolling window ending at row `e`. -/
def window12 (c : List Val) (e : Nat) : List Val :=
  (List.range 12).map fun t => c.getD (e - 11 + t) none

/-- Rolling 12-row correlation of two columns at window end `e`
(`df_ref.rolling(12).corr(df_other)`): `NaN` for the first 11 rows
(incomplete window, `min_periods = 12`) and whenever a window cell is missing. -/
def corrWin (c y : List Val) (e : Nat) : Option ℚ :=
  if e < 11 then none
  else
    match allVals (window12 c e), allVals (window12 y e) with
    | some xs, some ys => corrOf xs ys
    | _, _ => none

/-- Correlation-table entry of column `j` at window end `e`. -/
def corrAt (df : DF) (j e : Nat) : Option ℚ :=
  let c := df.cols.getD j []
  corrWin c (broadcastCol df.start c) e

/-- Row positions kept by `df_corr[df_corr.index.month == final month]`. -/
def corrRowIdxs (df : DF) : List Nat :=
  (List.range df.nrows).filter fun e =>
    (df.start + e) % 12 == df.finalMonth

/-- One full row of the correlation table (`self.df_correlacao.loc[...]`). -/
def corrRow (df : DF) (e : Nat) : List (Option ℚ) :=
  (List.range df.cols.length).map fun j => corrAt df j e

/-! ## Candidate ranking (line 238)

`top_corr = self.df_correlacao[self.coluna].sort_values(ascending=False)`:
descending by correlation, `NaN` rows last, ties by the table's chronological
row order (stable sort). -/

/-- "Comes weakly before" in the ranked order: larger correlation first,
`NaN` last, ties (including `NaN` ties) by chronological window-end index. -/
def rankLeB : Nat × Option ℚ → Nat × Option ℚ → Bool
  | (i, some x), (j, some y) => if x = y then i ≤ j else decide (y < x)
  | (_, some _), (_, none) => true
  | (_, none), (_, some _) => false
  | (i, none), (j, none) => i ≤ j

/-- Propositional form of `rankLeB`. -/
def RankLe (a b : Nat × Option ℚ) : Prop := rankLeB a b = true

instance : DecidableRel RankLe := fun a b => by
  unfold RankLe; infer_instance

/-- The ranked candidate list: pairs (window-end row, correlation of the
reference column), sorted. -/
def topCorr (df : DF) (j : Nat) : List (Nat × Option ℚ) :=
  List.insertionSort RankLe ((corrRowIdxs df).map fun e => (e, corrAt df j e))

/-! ## Ratio bounds (lines 242-249) -/

/-- Extended value of a float division: infinities and `NaN` appear when the
denominator is zero or an operand is missing. -/
inductive ERat where
  | nan : ERat
  | pinf : ERat
  | ninf : ERat
  | val (q : ℚ) : ERat
deriving DecidableEq

/-- Elementwise float division of two cells. -/
def fdiv : Val → Val → ERat
  | some a, some b =>
    if b = 0 then (if a = 0 then .nan else if 0 < a then .pinf else .ninf)
    else .val (a / b)
  | _, _ => .nan

/-- The mask `(0 < df_ratio) & (df_ratio < np.Inf)`: keeps exactly the
strictly positive finite ratios, everything else becomes `NaN` (dropped). -/
def keepPosFinite : ERat → Option ℚ
  | .val q => if 0 < q then some q else none
  | _ => none

/-- Retained ratios of station `j`: rows whose calendar month equals the final
month, ratio `value[t] / value[t+1]` (`df_base / df_base.shift(-1)`), masked
to positive finite values.  (The last row pairs with a missing shifted value,
hence never contributes.) -/
def retained (df : DF) (j : Nat) : List ℚ :=
  ((List.range df.nrows).filter fun i =>
      (df.start + i) % 12 == df.finalMonth).filterMap fun i =>
    keepPosFinite (fdiv (df.cell j i) (df.cell j (i + 1)))

/-- `NaN`-skipping minimum of a list (pandas `Series.min`). -/
def listMin : List ℚ → Option ℚ
  | [] => none
  | x :: xs => match listMin xs with
    | none => some x
    | some m => some (min x m)

/-- `NaN`-skipping maximum of a list (pandas `Series.max`). -/
def listMax : List ℚ → Option ℚ
  | [] => none
  | x :: xs => match listMax xs with
    | none => some x
    | some m => some (max x m)

/-- `self.amplitudes_['min']` of station `j`. -/
def ampMin (df : DF) (j : Nat) : Option ℚ := listMin (retained df j)

/-- `self.amplitudes_['max']` of station `j`. -/
def ampMax (df : DF) (j : Nat) : Option ℚ := listMax (retained df j)

/-! ## The candidate walk (lines 252-304) -/

/-- Candidate ratio of station `j` when the forecast would start at row `r`:
`candidato / df_base.iloc[-1]`. -/
def candRatio (df : DF) (r j : Nat) : ERat :=
  fdiv (df.cell j r) (df.cell j (df.nrows - 1))

/-- `new_ratio > amplitudes_['max']` for one station, with pandas `NaN`
comparison semantics (`NaN` on either side is `False`). -/
def ampGt : ERat → Option ℚ → Bool
  | .val q, some m => decide (m < q)
  | .pinf, some _ => true
  | _, _ => false

/-- `new_ratio < amplitudes_['min']` for one station (`NaN` is `False`). -/
def ampLt : ERat → Option ℚ → Bool
  | .val q, some m => decide (q < m)
  | .ninf, some _ => true
  | _, _ => false

/-- `(new_ratio > self.amplitudes_['max']).sum()`. -/
def countGt (df : DF) (r : Nat) : Nat :=
  (List.range df.cols.length).countP fun j => ampGt (candRatio df r j) (ampMax df j)

/-- `(new_ratio < self.amplitudes_['min']).sum()`. -/
def countLt (df : DF) (r : Nat) : Nat :=
  (List.range df.cols.length).countP fun j => ampLt (candRatio df r j) (ampMin df j)

/-- Rejection reason (`motivo`), carrying the data the source interpolates
into its message string. -/
inductive Motivo where
  | gt_max (count limit : Nat) : Motivo
  | lt_min (count limit : Nat) : Motivo
  | ano_utilizado : Motivo
deriving DecidableEq

/-- One entry of `self.anos_rejeitados_`. -/
structure Rejeicao where
  ano : Nat
  correlacao : Option ℚ
  motivo : Motivo
deriving DecidableEq

/-- The fitted attributes of `CorrelacaoAmplitude` after a successful `fit`. -/
structure FitResult where
  posicao_ : Nat
  period_escolhido_ini_ : Nat
  ano_escolhido_ : Nat
  correlacao_ : Option ℚ
  correlacao_outros_ : List (Option ℚ)
  anos_rejeitados_ : List Rejeicao
  gt_max_ : Nat
  lt_min_ : Nat
  escolhido_ : List ERat
deriving DecidableEq

/-- How `fit` can raise. -/
inductive FitError where
  | keyError (period : Nat) : FitError
  | posicaoNone (anos_rejeitados_ : List Rejeicao) : FitError
deriving DecidableEq

instance : DecidableEq (Except FitError FitResult) := fun a b =>
  match a, b with
  | .ok x, .ok y =>
    if h : x = y then .isTrue (by rw [h])
    else .isFalse (fun hh => h (by injection hh))
  | .error x, .error y =>
    if h : x = y then .isTrue (by rw [h])
    else .isFalse (fun hh => h (by injection hh))
  | .ok _, .error _ => .isFalse (fun hh => Except.noConfusion hh)
  | .error _, .ok _ => .isFalse (fun hh => Except.noConfusion hh)

/-- Constructor parameters of `CorrelacaoAmplitude`. -/
structure FitParams where
  coluna : Nat
  anos_ignorados : List Nat
  max_lt_min : Nat
  max_gt_max : Nat
deriving DecidableEq

/-- The `for posicao in range(1, len(top_corr))` walk.  `cands` is the ranked
list after rank 0, `pos` the current `posicao`, `acc` the rejections so far in
reverse order.  Exhaustion reaches line 300 with `posicao_ = None` and raises
(`posicaoNone`); a candidate whose following month lies past the series raises
the pandas `KeyError` of `df_base.loc[_period + 1]`. -/
def fitGo (df : DF) (p : FitParams) :
    List (Nat × Option ℚ) → Nat → List Rejeicao → Except FitError FitResult
  | [], _, acc => .error (.posicaoNone acc.reverse)
  | (e, corr) :: rest, pos, acc =>
    if e + 1 < df.nrows then
      if p.max_gt_max < countGt df (e + 1) then
        fitGo df p rest (pos + 1)
          ({ ano := yearOf (df.start + (e + 1)), correlacao := corr,
             motivo := .gt_max (countGt df (e + 1)) p.max_gt_max } :: acc)
      else if p.max_lt_min < countLt df (e + 1) then
        fitGo df p rest (pos + 1)
          ({ ano := yearOf (df.start + (e + 1)), correlacao := corr,
             motivo := .lt_min (countLt df (e + 1)) p.max_lt_min } :: acc)
      else if yearOf (df.start + (e + 1)) ∈ p.anos_ignorados then
        fitGo df p rest (pos + 1)
          ({ ano := yearOf (df.start + (e + 1)), correlacao := corr,
             motivo := .ano_utilizado } :: acc)
      else
        .ok { posicao_ := pos
              period_escolhido_ini_ := df.start + (e + 1)
              ano_escolhido_ := yearOf (df.start + (e + 1))
              correlacao_ := corr
              correlacao_outros_ := corrRow df e
              anos_rejeitados_ := acc.reverse
              gt_max_ := countGt df (e + 1)
              lt_min_ := countLt df (e + 1)
              escolhido_ := (List.range df.cols.length).map fun j => candRatio df (e + 1) j }
    else .error (.keyError (df.start + e + 1))

/-- `CorrelacaoAmplitude.fit` (lines 224-304). -/
def fit (p : FitParams) (df : DF) : Except FitError FitResult :=
  fitGo df p ((topCorr df p.coluna).drop 1) 1 []

/-! ## `CorrelacaoAmplitude.predict` (lines 307-349)

`self.df_base.loc[mes_escolhido_ini:].iloc[:num_meses]` re-indexed onto the
months following the last observed one.  Python's `num_meses if num_meses
else (13 - month)` treats both `None` and `0` as "default to the rest of the
calendar year". -/

/-- `predict` of a fitted model: `df` is `self.df_base`, `p0` is
`self.period_escolhido_ini_`. -/
def predict (df : DF) (p0 : Nat) (num_meses : Option Nat) : DF :=
  let nm := match num_meses with
    | some m => if m = 0 then 13 - (monthOf p0 + 1) else m
    | none => 13 - (monthOf p0 + 1)
  let k := p0 - df.start
  { start := df.start + df.nrows
    nrows := min nm (df.nrows - k)
    cols := df.cols.map fun c => (c.drop k).take nm }

/-- Observation helper: the length of the rejection-record list carried by an
exhausted run (`None` otherwise). -/
def rejLenOf : Except FitError FitResult → Option Nat
  | .error (.posicaoNone l) => some l.length
  | _ => none

/-! ## Heap model for the ownership claim

The pandas objects are buffers in a heap; `.copy()` allocates a fresh buffer,
the masked assignments of the broadcast loop write in place to the buffer of
`df_other`, everything else only reads.  Buffer ids are positions in the list;
reading an unallocated id yields an empty frame. -/

/-- The heap of DataFrame buffers. -/
abbrev Heap := List DF

/-- The empty frame used as default for unallocated reads. -/
def dfDefault : DF := { start := 0, nrows := 0, cols := [] }

/-- Read the buffer at id `i`. -/
def hread (h : Heap) (i : Nat) : DF := h.getD i dfDefault

/-- `.copy()` / constructing a fresh object: allocate a new buffer. -/
def halloc (h : Heap) (d : DF) : Heap × Nat := (h ++ [d], h.length)

/-- In-place update of buffer `i`. -/
def hwrite (h : Heap) (i : Nat) (d : DF) : Heap := h.set i d

/-- One masked in-place assignment at the DataFrame level:
`df_other[df_other.index.month == month] = trecho row` where the reference
window is read from `ref` (the unmutated `df_ref`). -/
def DF.bMonthDF (cur ref : DF) (m : Nat) : DF :=
  { cur with cols := (cur.cols.zip ref.cols).map fun cr => bMonth cur.start cr.2 cr.1 m }

/-- The correlation table computed from the two buffers
(`df_ref.rolling(12).corr(df_other)` filtered to the final month). -/
def corrTableOf (ref other : DF) : List (Nat × List (Option ℚ)) :=
  (corrRowIdxs ref).map fun e =>
    (e, (List.range ref.cols.length).map fun j =>
      corrWin (ref.cols.getD j []) (other.cols.getD j []) e)

/-- `calc_corr_last12` at the buffer level: copy the history twice
(`df_ref`, `df_other`), run the 12 masked in-place writes on `df_other`,
return the final heap and the table. -/
def calcCorrHeap (h : Heap) (hist : Nat) : Heap × List (Nat × List (Option ℚ)) :=
  let refAl := halloc h (hread h hist)
  let othAl := halloc refAl.1 (hread refAl.1 refAl.2)
  let final := (List.range 12).foldl
    (fun hh m => hwrite hh othAl.2 ((hread hh othAl.2).bMonthDF (hread hh refAl.2) m))
    othAl.1
  (final, corrTableOf (hread final refAl.2) (hread final othAl.2))

/-- `CorrelacaoAmplitude.fit` at the buffer level: `self.df_base =
df_base.copy()` allocates, `calc_corr_last12(df_base)` runs on the caller's
buffer; the ratio frames, `amplitudes_` and the rejection list are fresh
objects of the instance and the candidate walk only reads.  Returns the final
heap and the buffer id of `self.df_base`. -/
def fitHeap (h : Heap) (hist : Nat) : Heap × Nat :=
  let baseAl := halloc h (hread h hist)
  ((calcCorrHeap baseAl.1 hist).1, baseAl.2)

/-- `predict` at the buffer level: slices of `self.df_base` and the `.copy()`
are fresh objects; the index assignment mutates only the copy.  Returns the
final heap and the id of the returned frame. -/
def predictHeap (h : Heap) (base : Nat) (p0 : Nat) (nm : Option Nat) : Heap × Nat :=
  (h ++ [predict (hread h base) p0 nm], h.length)

/-! ## Concrete inputs used by witnesses and counterexamples -/

/-- A single-station 24-month history: January of year 0 through December of
year 1; the second year repeats the first except for its December value. -/
def colA : List Val :=
  [some 1, some 2, some 3, some 4, some 5, some 6, some 7, some 8, some 9,
   some 10, some 11, some 12,
   some 1, some 2, some 3, some 4, some 5, some 6, some 7, some 8, some 9,
   some 10, some 11, some 13]

/-- One-station frame over `colA`. -/
def dfA : DF := { start := 0, nrows := 24, cols := [colA] }

/-- Default parameters: reference column 0, nothing excluded, thresholds 80. -/
def pA : FitParams :=
  { coluna := 0, anos_ignorados := [], max_lt_min := 80, max_gt_max := 80 }

/-- Same parameters but the only candidate's year (year 1) is excluded. -/
def p3 : FitParams :=
  { coluna := 0, anos_ignorados := [1], max_lt_min := 80, max_gt_max := 80 }

/-- A 24-month series whose values are constant: every rolling correlation is
`NaN` (zero variance). -/
def df5 : DF := { start := 0, nrows := 24, cols := [List.replicate 24 (some 3)] }

/-- Two stations: `colA` plus an all-zero station (all its ratios are `0/0`,
hence no retained ratio at all). -/
def df8 : DF := { start := 0, nrows := 24, cols := [colA, List.replicate 24 (some 0)] }

/-- The result of the successful fit on `dfA` (extracted from the run). -/
def rA : FitResult :=
  ((fit pA dfA).toOption).getD
    { posicao_ := 0, period_escolhido_ini_ := 0, ano_escolhido_ := 0,
      correlacao_ := none, correlacao_outros_ := [], anos_rejeitados_ := [],
      gt_max_ := 0, lt_min_ := 0, escolhido_ := [] }

/-- The result of the successful fit on the two-station frame `df8`. -/
def r8 : FitResult :=
  ((fit pA df8).toOption).getD
    { posicao_ := 0, period_escolhido_ini_ := 0, ano_escolhido_ := 0,
      correlacao_ := none, correlacao_outros_ := [], anos_rejeitados_ := [],
      gt_max_ := 0, lt_min_ := 0, escolhido_ := [] }

/-! # Theorems -/

/-- Invariant of the candidate walk: any accepted result passed both amplitude
checks and the excluded-year check, and its recorded counts are exactly the
counts computed from its own forecast-start row. -/
theorem fitGo_ok (df : DF) (p : FitParams) :
    ∀ (cands : List (Nat × Option ℚ)) (pos : Nat) (acc : List Rejeicao)
      (res : FitResult), fitGo df p cands pos acc = Except.ok res →
      res.gt_max_ ≤ p.max_gt_max ∧ res.lt_min_ ≤ p.max_lt_min ∧
      res.ano_escolhido_ ∉ p.anos_ignorados ∧
      res.gt_max_ = countGt df (res.period_escolhido_ini_ - df.start) ∧
      res.lt_min_ = countLt df (res.period_escolhido_ini_ - df.start) ∧
      res.ano_escolhido_ = yearOf res.period_escolhido_ini_ ∧
      df.start < res.period_escolhido_ini_ ∧
      res.period_escolhido_ini_ - df.start < df.nrows := by
  intro cands
  induction cands with
  | nil => intro pos acc res h; simp [fitGo] at h
  | cons hd rest ih =>
    intro pos acc res h
    obtain ⟨e, corr⟩ := hd
    rw [fitGo] at h
    by_cases h1 : e + 1 < df.nrows
    · rw [if_pos h1] at h
      by_cases h2 : p.max_gt_max < countGt df (e + 1)
      · rw [if_pos h2] at h; exact ih _ _ _ h
      · rw [if_neg h2] at h
        by_cases h3 : p.max_lt_min < countLt df (e + 1)
        · rw [if_pos h3] at h; exact ih _ _ _ h
        · rw [if_neg h3] at h
          by_cases h4 : yearOf (df.start + (e + 1)) ∈ p.anos_ignorados
          · rw [if_pos h4] at h; exact ih _ _ _ h
          · rw [if_neg h4] at h
            injection h with h; subst h
            refine ⟨Nat.le_of_not_lt h2, Nat.le_of_not_lt h3, h4, ?_, ?_, rfl, ?_, ?_⟩
            · show countGt df (e + 1) = countGt df (df.start + (e + 1) - df.start)
              congr 1; omega
            · show countLt df (e + 1) = countLt df (df.start + (e + 1) - df.start)
              congr 1; omega
            · show df.start < df.start + (e + 1); omega
            · show df.start + (e + 1) - df.start < df.nrows; omega
    · rw [if_neg h1] at h; exact absurd h (by simp)

/-- C1: for every input series and parameter set on which `fit` accepts a
candidate, the recorded violation counts satisfy `gt_max_ ≤ max_gt_max` and
`lt_min_ ≤ max_lt_min` simultaneously, and they are exactly the number of
stations whose candidate ratio (value at the month following the candidate
window's end, divided by the value at the series' final month) exceeds,
respectively falls below, that station's historical bound. -/
theorem C1_accepted_within_limits (p : FitParams) (df : DF) (res : FitResult)
    (h : fit p df = Except.ok res) :
    res.gt_max_ ≤ p.max_gt_max ∧ res.lt_min_ ≤ p.max_lt_min ∧
    res.gt_max_ = countGt df (res.period_escolhido_ini_ - df.start) ∧
    res.lt_min_ = countLt df (res.period_escolhido_ini_ - df.start) := by
  have hh := fitGo_ok df p _ _ _ _ h
  exact ⟨hh.1, hh.2.1, hh.2.2.2.1, hh.2.2.2.2.1⟩

/-- Witness for C1: the concrete successful fit on `dfA`. -/
theorem C1_witness :
    rA.gt_max_ ≤ pA.max_gt_max ∧ rA.lt_min_ ≤ pA.max_lt_min ∧
    rA.gt_max_ = countGt dfA (rA.period_escolhido_ini_ - dfA.start) ∧
    rA.lt_min_ = countLt dfA (rA.period_escolhido_ini_ - dfA.start) :=
  C1_accepted_within_limits pA dfA rA (by decide!)

/-- C2: for every input series and excluded-years set, an accepted candidate's
year `ano_escolhido_` (the calendar year of the month immediately following
the candidate window's end) is not a member of `anos_ignorados`. -/
theorem C2_accepted_year_not_ignored (p : FitParams) (df : DF) (res : FitResult)
    (h : fit p df = Except.ok res) :
    res.ano_escolhido_ ∉ p.anos_ignorados ∧
    res.ano_escolhido_ = yearOf res.period_escolhido_ini_ := by
  have hh := fitGo_ok df p _ _ _ _ h
  exact ⟨hh.2.2.1, hh.2.2.2.2.2.1⟩

/-- Witness for C2: the concrete successful fit on `dfA`. -/
theorem C2_witness :
    rA.ano_escolhido_ ∉ pA.anos_ignorados ∧
    rA.ano_escolhido_ = yearOf rA.period_escolhido_ini_ :=
  C2_accepted_year_not_ignored pA dfA rA (by decide!)

/-- C3 (at the failing input): with the only candidate's year excluded, the
walk exhausts and `fit` fails — but through the uncontrolled lookup
`top_corr.iloc[None]` (`posicaoNone`), not a distinguishable
`NoAcceptableAnalog`; the rejection record at that point has exactly one
entry per examined candidate (the ranked list minus rank 0). -/
theorem C3_exhaustion_failing_input :
    rejLenOf (fit p3 dfA) = some ((topCorr dfA p3.coluna).length - 1) ∧
    (topCorr dfA p3.coluna).length = 2 := by decide!

/-- `listMin` returns `none` exactly on the empty list. -/
theorem listMin_eq_none_iff (l : List ℚ) : listMin l = none ↔ l = [] := by
  induction l with
  | nil => simp [listMin]
  | cons x xs ih =>
    rw [listMin]
    cases hxs : listMin xs <;> simp

/-- `listMax` returns `none` exactly on the empty list. -/
theorem listMax_eq_none_iff (l : List ℚ) : listMax l = none ↔ l = [] := by
  induction l with
  | nil => simp [listMax]
  | cons x xs ih =>
    rw [listMax]
    cases hxs : listMax xs <;> simp

/-- A `listMin` value is a member and a lower bound. -/
theorem listMin_spec (l : List ℚ) :
    ∀ m, listMin l = some m → m ∈ l ∧ ∀ x ∈ l, m ≤ x := by
  induction l with
  | nil => intro m h; simp [listMin] at h
  | cons x xs ih =>
    intro m h
    rw [listMin] at h
    cases hxs : listMin xs with
    | none =>
      rw [hxs] at h
      injection h with h; subst h
      have : xs = [] := (listMin_eq_none_iff xs).mp hxs
      subst this
      exact ⟨by simp, by simp⟩
    | some m' =>
      rw [hxs] at h
      injection h with h; subst h
      obtain ⟨hmem, hbd⟩ := ih m' hxs
      constructor
      · rcases le_total x m' with hx | hx
        · simp [min_eq_left hx]
        · rw [min_eq_right hx]; exact List.mem_cons_of_mem _ hmem
      · intro y hy
        rcases List.mem_cons.mp hy with rfl | hy
        · exact min_le_left _ _
        · exact le_trans (min_le_right _ _) (hbd y hy)

/-- A `listMax` value is a member and an upper bound. -/
theorem listMax_spec (l : List ℚ) :
    ∀ m, listMax l = some m → m ∈ l ∧ ∀ x ∈ l, x ≤ m := by
  induction l with
  | nil => intro m h; simp [listMax] at h
  | cons x xs ih =>
    intro m h
    rw [listMax] at h
    cases hxs : listMax xs with
    | none =>
      rw [hxs] at h
      injection h with h; subst h
      have : xs = [] := (listMax_eq_none_iff xs).mp hxs
      subst this
      exact ⟨by simp, by simp⟩
    | some m' =>
      rw [hxs] at h
      injection h with h; subst h
      obtain ⟨hmem, hbd⟩ := ih m' hxs
      constructor
      · rcases le_total m' x with hx | hx
        · simp [max_eq_left hx]
        · rw [max_eq_right hx]; exact List.mem_cons_of_mem _ hmem
      · intro y hy
        rcases List.mem_cons.mp hy with rfl | hy
        · exact le_max_left _ _
        · exact le_trans (hbd y hy) (le_max_right _ _)

/-- The mask retains a value exactly when both cells are present, the
denominator is nonzero, and the quotient is strictly positive. -/
theorem keepPosFinite_fdiv_iff (x y : Val) (q : ℚ) :
    keepPosFinite (fdiv x y) = some q ↔
      ∃ a b, x = some a ∧ y = some b ∧ b ≠ 0 ∧ 0 < a / b ∧ q = a / b := by
  cases x with
  | none => simp [fdiv, keepPosFinite]
  | some a =>
    cases y with
    | none => simp [fdiv, keepPosFinite]
    | some b =>
      by_cases hb : b = 0
      · subst hb
        rw [fdiv]
        simp only [if_pos rfl]
        by_cases ha : a = 0
        · simp [if_pos ha, keepPosFinite]
        · by_cases ha' : 0 < a <;>
            simp [if_neg ha, ha', keepPosFinite]
      · rw [fdiv]
        rw [if_neg hb]
        by_cases hq : 0 < a / b
        · simp only [keepPosFinite, if_pos hq, Option.some.injEq]
          constructor
          · intro h; exact ⟨a, b, rfl, rfl, hb, hq, h.symm⟩
          · rintro ⟨a', b', ha', hb', _, _, rfl⟩
            rw [ha', hb']
        · simp only [keepPosFinite, if_neg hq]
          constructor
          · intro h; exact absurd h (by simp)
          · rintro ⟨a', b', ha', hb', _, hq', rfl⟩
            injection ha' with ha'; injection hb' with hb'
            rw [← ha', ← hb'] at hq'
            exact absurd hq' hq

/-- Membership in the retained-ratio list of a station. -/
theorem mem_retained_iff (df : DF) (j : Nat) (q : ℚ) :
    q ∈ retained df j ↔ ∃ i, i < df.nrows ∧ (df.start + i) % 12 = df.finalMonth ∧
      keepPosFinite (fdiv (df.cell j i) (df.cell j (i + 1))) = some q := by
  unfold retained
  simp only [List.mem_filterMap, List.mem_filter, List.mem_range, beq_iff_eq]
  constructor
  · rintro ⟨i, ⟨hi, hm⟩, hk⟩; exact ⟨i, hi, hm, hk⟩
  · rintro ⟨i, hi, hm, hk⟩; exact ⟨i, ⟨hi, hm⟩, hk⟩

/-- C4: per station, `amplitudes_['min']`/`amplitudes_['max']` are the minimum
and maximum of the ratios `value[t] / value[t+1]` over exactly the rows whose
calendar month equals the final row's and whose ratio is strictly positive and
finite; ratios that are zero, negative, infinite, or involve a missing value
are discarded (the bounds are `NaN` only when nothing is retained). -/
theorem C4_amplitude_bounds (df : DF) (j : Nat) :
    (∀ q, q ∈ retained df j ↔
      ∃ i a b, i < df.nrows ∧ (df.start + i) % 12 = df.finalMonth ∧
        df.cell j i = some a ∧ df.cell j (i + 1) = some b ∧
        b ≠ 0 ∧ 0 < a / b ∧ q = a / b) ∧
    (ampMin df j = none ↔ retained df j = []) ∧
    (ampMax df j = none ↔ retained df j = []) ∧
    (∀ m, ampMin df j = some m → m ∈ retained df j ∧ ∀ x ∈ retained df j, m ≤ x) ∧
    (∀ m, ampMax df j = some m → m ∈ retained df j ∧ ∀ x ∈ retained df j, x ≤ m) := by
  refine ⟨?_, listMin_eq_none_iff _, listMax_eq_none_iff _,
    fun m h => listMin_spec _ m h, fun m h => listMax_spec _ m h⟩
  intro q
  rw [mem_retained_iff]
  constructor
  · rintro ⟨i, hi, hm, hk⟩
    obtain ⟨a, b, ha, hb, hb0, hq, rfl⟩ := (keepPosFinite_fdiv_iff _ _ _).mp hk
    exact ⟨i, a, b, hi, hm, ha, hb, hb0, hq, rfl⟩
  · rintro ⟨i, a, b, hi, hm, ha, hb, hb0, hq, rfl⟩
    exact ⟨i, hi, hm, (keepPosFinite_fdiv_iff _ _ _).mpr ⟨a, b, ha, hb, hb0, hq, rfl⟩⟩

/-- Witness for C4: on the concrete frame, `12` is the recorded minimum and is
a member and lower bound of the retained ratios. -/
theorem C4_witness :
    (12 : ℚ) ∈ retained dfA 0 ∧ ∀ x ∈ retained dfA 0, (12 : ℚ) ≤ x :=
  (C4_amplitude_bounds dfA 0).2.2.2.1 12 (by decide!)

/-- C10: a station whose historical bound is `NaN` (`none`), or whose
candidate ratio is `NaN`, contributes to neither violation count — `NaN`
comparisons are `False` — so the counts equal the counts over stations with
defined bound and defined ratio only. -/
theorem C10_nan_never_counts :
    (∀ r : ERat, ampGt r none = false) ∧
    (∀ r : ERat, ampLt r none = false) ∧
    (∀ m : Option ℚ, ampGt ERat.nan m = false) ∧
    (∀ m : Option ℚ, ampLt ERat.nan m = false) ∧
    (∀ (df : DF) (r : Nat),
      countGt df r = (List.range df.cols.length).countP
        (fun j => ((ampMax df j).isSome && !(candRatio df r j == ERat.nan)) &&
          ampGt (candRatio df r j) (ampMax df j)) ∧
      countLt df r = (List.range df.cols.length).countP
        (fun j => ((ampMin df j).isSome && !(candRatio df r j == ERat.nan)) &&
          ampLt (candRatio df r j) (ampMin df j))) := by
  have hgt : ∀ (r : ERat) (m : Option ℚ),
      ((m.isSome && !(r == ERat.nan)) && ampGt r m) = ampGt r m := by
    intro r m; cases r <;> cases m <;> simp [ampGt]
  have hlt : ∀ (r : ERat) (m : Option ℚ),
      ((m.isSome && !(r == ERat.nan)) && ampLt r m) = ampLt r m := by
    intro r m; cases r <;> cases m <;> simp [ampLt]
  refine ⟨fun r => by cases r <;> rfl, fun r => by cases r <;> rfl,
    fun m => by cases m <;> rfl, fun m => by cases m <;> rfl, fun df r => ⟨?_, ?_⟩⟩
  · exact (List.countP_congr fun j _ => by rw [hgt]).symm
  · exact (List.countP_congr fun j _ => by rw [hlt]).symm

/-- C8 (amended): a station with zero retained ratios gets `NaN` bounds, and
such a station can never be counted against a candidate, so `fit` proceeds
rather than failing. -/
theorem C8_zero_ratios_nan_bounds (df : DF) (j : Nat) (h : retained df j = []) :
    ampMin df j = none ∧ ampMax df j = none ∧
    (∀ r : Nat, ampGt (candRatio df r j) (ampMax df j) = false ∧
      ampLt (candRatio df r j) (ampMin df j) = false) := by
  have h1 : ampMin df j = none := by unfold ampMin; rw [h]; rfl
  have h2 : ampMax df j = none := by unfold ampMax; rw [h]; rfl
  refine ⟨h1, h2, fun r => ⟨?_, ?_⟩⟩
  · rw [h2]; cases candRatio df r j <;> rfl
  · rw [h1]; cases candRatio df r j <;> rfl

/-- Witness for C8: station 1 of `df8` retains no ratio, its bounds are `NaN`
and it never counts. -/
theorem C8_witness :
    ampMin df8 1 = none ∧ ampMax df8 1 = none ∧
    (∀ r : Nat, ampGt (candRatio df8 r 1) (ampMax df8 1) = false ∧
      ampLt (candRatio df8 r 1) (ampMin df8 1) = false) :=
  C8_zero_ratios_nan_bounds df8 1 (by decide!)

/-- C8 (counterexample to the claim as stated): station 1 of `df8` has zero
retained ratios, yet `fit` succeeds — there is no `InsufficientHistory`
failure. -/
theorem C8_counterexample :
    retained df8 1 = [] ∧ (fit pA df8).isOk = true := by decide!

/-- C7 (counterexample to the claim as stated): on the fitted model for `dfA`
(forecast start at period 12, 12 rows remaining) a requested horizon of 20
does not fail — `predict` silently returns the 12 remaining rows. -/
theorem C7_counterexample :
    (fit pA dfA).toOption = some rA ∧
    (predict dfA rA.period_escolhido_ini_ (some 20)).nrows = 12 ∧
    (12 : Nat) ≠ 20 := by decide!

/-- C7 (amended): for an explicitly requested nonzero horizon, `predict` never
fails; it returns `min (requested) (rows remaining from the forecast start)`
rows — silently truncating when the horizon runs past the end. -/
theorem C7_predict_truncates (df : DF) (p0 m : Nat) (hwf : df.Wf) (hm : m ≠ 0) :
    (predict df p0 (some m)).nrows = min m (df.nrows - (p0 - df.start)) ∧
    (predict df p0 (some m)).start = df.start + df.nrows ∧
    (predict df p0 (some m)).Wf := by
  unfold predict
  simp only [if_neg hm]
  refine ⟨trivial, trivial, ?_⟩
  intro c hc
  simp only [List.mem_map] at hc
  obtain ⟨c0, hc0, rfl⟩ := hc
  simp only [List.length_take, List.length_drop, hwf c0 hc0]

/-- Witness for C7's amended claim at a concrete over-long horizon. -/
theorem C7_witness :
    (predict dfA 12 (some 20)).nrows = min 20 (dfA.nrows - (12 - dfA.start)) ∧
    (predict dfA 12 (some 20)).start = dfA.start + dfA.nrows ∧
    (predict dfA 12 (some 20)).Wf :=
  C7_predict_truncates dfA 12 20 (by unfold DF.Wf; decide) (by decide)

/-- Auxiliary: `getD` with default `[]` commutes with mapping a `[]`-preserving
function over the column list. -/
theorem getD_map_cell (l : List (List Val)) (f : List Val → List Val)
    (hf : f [] = []) (j : Nat) : (l.map f).getD j [] = f (l.getD j []) := by
  induction l generalizing j with
  | nil => simp [hf]
  | cons c cs ih =>
    cases j with
    | zero => rfl
    | succ j => simpa using ih j

/-- C6: when `h` rows exist at and after the forecast-start period, `predict h`
returns exactly `h` rows, re-indexed to begin immediately after the last
observed month, each cell copied verbatim from the base series. -/
theorem C6_predict_copies (df : DF) (p0 h : Nat) (hwf : df.Wf)
    (hh : h ≠ 0) (hroom : p0 - df.start + h ≤ df.nrows) :
    (predict df p0 (some h)).start = df.start + df.nrows ∧
    (predict df p0 (some h)).nrows = h ∧
    (predict df p0 (some h)).Wf ∧
    ∀ j i, i < h →
      (predict df p0 (some h)).cell j i = df.cell j (p0 - df.start + i) := by
  obtain ⟨hn, hs, hw⟩ := C7_predict_truncates df p0 h hwf hh
  refine ⟨hs, ?_, hw, ?_⟩
  · rw [hn]; omega
  · intro j i hi
    unfold predict DF.cell
    simp only [if_neg hh]
    rw [getD_map_cell _ _ (by simp) j]
    rw [List.getD_eq_getElem?_getD, List.getD_eq_getElem?_getD,
      List.getElem?_take, if_pos hi, List.getElem?_drop,
      List.getD_eq_getElem?_getD]

/-- Witness for C6 on the concrete fitted frame: horizon 5 from period 12. -/
theorem C6_witness :
    (predict dfA 12 (some 5)).start = dfA.start + dfA.nrows ∧
    (predict dfA 12 (some 5)).nrows = 5 ∧
    (predict dfA 12 (some 5)).Wf ∧
    ∀ j i, i < 5 →
      (predict dfA 12 (some 5)).cell j i = dfA.cell j (12 - dfA.start + i) :=
  C6_predict_copies dfA 12 5 (by unfold DF.Wf; decide) (by decide) (by decide)

/-- Allocation leaves existing buffers readable unchanged. -/
theorem hread_append (h : Heap) (d : DF) (i : Nat) (hi : i < h.length) :
    hread (h ++ [d]) i = hread h i := by
  unfold hread
  exact List.getD_append _ _ _ _ hi

/-- Writing one buffer does not change a different one. -/
theorem hread_hwrite_ne (h : Heap) (i j : Nat) (d : DF) (hij : j ≠ i) :
    hread (hwrite h i d) j = hread h j := by
  unfold hread hwrite
  rw [List.getD_eq_getElem?_getD, List.getElem?_set_ne (by omega),
    ← List.getD_eq_getElem?_getD]

/-- The broadcast loop writes only the `df_other` buffer: any other buffer is
unchanged by the whole fold. -/
theorem hread_fold_writes (other ref i : Nat) (hi : i ≠ other) :
    ∀ (ms : List Nat) (hh : Heap),
      hread (ms.foldl
        (fun hh m =>
          hwrite hh other ((hread hh other).bMonthDF (hread hh ref) m)) hh) i =
      hread hh i := by
  intro ms
  induction ms with
  | nil => intro hh; rfl
  | cons m ms ih =>
    intro hh
    rw [List.foldl_cons, ih, hread_hwrite_ne _ _ _ _ hi]

/-- `calc_corr_last12` leaves every pre-existing buffer unchanged. -/
theorem calcCorrHeap_preserves (g : Heap) (hist i : Nat) (hi : i < g.length) :
    hread (calcCorrHeap g hist).1 i = hread g i := by
  unfold calcCorrHeap halloc
  dsimp only
  rw [hread_fold_writes _ _ _ (by simp; omega),
    hread_append _ _ _ (by simp; omega), hread_append _ _ _ hi]

/-- C9: frame condition — neither `calc_corr_last12` nor `fit` nor `predict`
mutates the caller's input DataFrame buffer: after each call the buffer holds
the same index and cell values; all transformations operate on copies. -/
theorem C9_no_mutation (h : Heap) (hist : Nat) (hh : hist < h.length) :
    hread (calcCorrHeap h hist).1 hist = hread h hist ∧
    hread (fitHeap h hist).1 hist = hread h hist ∧
    ∀ (base p0 : Nat) (nm : Option Nat),
      hread (predictHeap h base p0 nm).1 hist = hread h hist := by
  refine ⟨calcCorrHeap_preserves h hist hist hh, ?_, ?_⟩
  · unfold fitHeap halloc
    dsimp only
    rw [calcCorrHeap_preserves _ _ _ (by simp; omega),
      hread_append _ _ _ hh]
  · intro base p0 nm
    unfold predictHeap
    dsimp only
    exact hread_append _ _ _ hh

/-- Witness for C9 at a concrete one-buffer heap. -/
theorem C9_witness :
    hread (calcCorrHeap [dfA] 0).1 0 = hread [dfA] 0 ∧
    hread (fitHeap [dfA] 0).1 0 = hread [dfA] 0 ∧
    hread (predictHeap [dfA] 0 12 (some 5)).1 0 = hread [dfA] 0 :=
  ⟨(C9_no_mutation [dfA] 0 (by decide)).1,
   (C9_no_mutation [dfA] 0 (by decide)).2.1,
   (C9_no_mutation [dfA] 0 (by decide)).2.2 0 12 (some 5)⟩

/-- The ranking comparator is total. -/
theorem rankLeB_total (a b : Nat × Option ℚ) :
    rankLeB a b = true ∨ rankLeB b a = true := by
  obtain ⟨i, x⟩ := a
  obtain ⟨j, y⟩ := b
  cases x with
  | none =>
    cases y with
    | none => simp [rankLeB]; omega
    | some y => simp [rankLeB]
  | some x =>
    cases y with
    | none => simp [rankLeB]
    | some y =>
      by_cases hxy : x = y
      · subst hxy; simp [rankLeB]; omega
      · rcases lt_or_gt_of_ne hxy with h | h
        · right; simp [rankLeB, Ne.symm hxy, h]
        · left; simp [rankLeB, hxy, h]

/-- The ranking comparator is transitive. -/
theorem rankLeB_trans (a b c : Nat × Option ℚ)
    (hab : rankLeB a b = true) (hbc : rankLeB b c = true) :
    rankLeB a c = true := by
  obtain ⟨i, x⟩ := a
  obtain ⟨j, y⟩ := b
  obtain ⟨k, z⟩ := c
  cases x with
  | none =>
    cases y with
    | none =>
      cases z with
      | none => simp [rankLeB] at hab hbc ⊢; omega
      | some z => simp [rankLeB] at hbc
    | some y => simp [rankLeB] at hab
  | some x =>
    cases y with
    | none =>
      cases z with
      | none => simp [rankLeB]
      | some z => simp [rankLeB] at hbc
    | some y =>
      cases z with
      | none => simp [rankLeB]
      | some z =>
        by_cases hxy : x = y
        · subst hxy
          by_cases hyz : x = z
          · subst hyz
            simp [rankLeB] at hab hbc ⊢; omega
          · simpa [rankLeB, hyz] using hbc
        · have hyx : y < x := by simpa [rankLeB, hxy] using hab
          by_cases hyz : y = z
          · subst hyz
            simp [rankLeB, hxy, hyx]
          · have hzy : z < y := by simpa [rankLeB, hyz] using hbc
            have hzx : z < x := lt_trans hzy hyx
            simp [rankLeB, ne_of_gt hzx, hzx]

instance : IsTotal (Nat × Option ℚ) RankLe :=
  ⟨fun a b => rankLeB_total a b⟩

instance : IsTrans (Nat × Option ℚ) RankLe :=
  ⟨fun a b c => rankLeB_trans a b c⟩

/-- The ranked list is sorted by the ranking order. -/
theorem topCorr_sorted (df : DF) (j : Nat) :
    List.Sorted RankLe (topCorr df j) :=
  List.sorted_insertionSort RankLe _

/-- The ranked list is a permutation of the correlation-table column. -/
theorem topCorr_perm (df : DF) (j : Nat) :
    List.Perm (topCorr df j) ((corrRowIdxs df).map fun e => (e, corrAt df j e)) :=
  List.perm_insertionSort RankLe _

/-- A masked assignment preserves the column length. -/
theorem bMonthGo_length (start : Nat) (tv : Val) (m : Nat) :
    ∀ (vs : List Val) (i0 : Nat), (bMonthGo start tv m i0 vs).length = vs.length := by
  intro vs
  induction vs with
  | nil => intro i0; rfl
  | cons v vs ih => intro i0; simp [bMonthGo, ih]

/-- Cell of a masked assignment: rows of month `m` (counting from offset `i0`)
hold the assigned value, others are unchanged. -/
theorem bMonthGo_getD (start : Nat) (tv : Val) (m : Nat) :
    ∀ (vs : List Val) (i0 i : Nat),
      (bMonthGo start tv m i0 vs).getD i none =
        if i < vs.length then
          (if (start + (i0 + i)) % 12 = m then tv else vs.getD i none)
        else none := by
  intro vs
  induction vs with
  | nil => intro i0 i; simp [bMonthGo]
  | cons v vs ih =>
    intro i0 i
    cases i with
    | zero => simp [bMonthGo]
    | succ i =>
      rw [bMonthGo]
      simp only [List.getD_cons_succ, List.length_cons]
      rw [ih (i0 + 1) i]
      have h0 : i0 + 1 + i = i0 + (i + 1) := by omega
      rw [h0]
      by_cases hlen : i < vs.length
      · rw [if_pos hlen, if_pos (show i + 1 < vs.length + 1 by omega)]
      · rw [if_neg hlen, if_neg (show ¬ i + 1 < vs.length + 1 by omega)]

/-- `bMonth` preserves the column length. -/
theorem bMonth_length (start : Nat) (cref cur : List Val) (m : Nat) :
    (bMonth start cref cur m).length = cur.length :=
  bMonthGo_length start _ m cur 0

/-- Cell of one `bMonth` pass. -/
theorem bMonth_getD (start : Nat) (cref cur : List Val) (m i : Nat) :
    (bMonth start cref cur m).getD i none =
      if i < cur.length then
        (if (start + i) % 12 = m then trechoVal start cref m else cur.getD i none)
      else none := by
  unfold bMonth
  rw [bMonthGo_getD start _ m cur 0 i, Nat.zero_add]

/-- Cell of the whole broadcast loop over a set of months: a row whose month
was processed holds the reference-window value of its own month; other rows
are untouched. -/
theorem broadcast_fold_getD (start : Nat) (cref : List Val) :
    ∀ (ms : List Nat) (cur : List Val), cur.length = cref.length → ∀ (i : Nat),
      ((ms.foldl (fun cc m => bMonth start cref cc m) cur).getD i none) =
        if (start + i) % 12 ∈ ms ∧ i < cref.length then
          trechoVal start cref ((start + i) % 12)
        else cur.getD i none := by
  intro ms
  induction ms with
  | nil => intro cur hlen i; simp
  | cons m ms ih =>
    intro cur hlen i
    rw [List.foldl_cons,
      ih (bMonth start cref cur m) (by rw [bMonth_length]; exact hlen) i]
    by_cases h1 : (start + i) % 12 ∈ ms ∧ i < cref.length
    · rw [if_pos h1, if_pos ⟨List.mem_cons_of_mem _ h1.1, h1.2⟩]
    · rw [if_neg h1, bMonth_getD]
      by_cases h2 : i < cref.length
      · rw [if_pos (by omega : i < cur.length)]
        by_cases h3 : (start + i) % 12 = m
        · rw [if_pos h3, if_pos ⟨by rw [h3]; exact List.mem_cons_self m ms, h2⟩, h3]
        · have h4 : (start + i) % 12 ∉ ms := fun hmem => h1 ⟨hmem, h2⟩
          rw [if_neg h3, if_neg (by
            intro hc
            rcases List.mem_cons.mp hc.1 with hc1 | hc1
            · exact h3 hc1
            · exact h4 hc1)]
      · rw [if_neg (by omega : ¬ i < cur.length),
          if_neg (fun hc => h2 hc.2),
          List.getD_eq_default _ _ (by omega)]

/-- Inside the reference window the broadcast column equals the original:
each of its rows is the unique reference row of its own calendar month. -/
theorem broadcastCol_getD_last12 (start : Nat) (c : List Val) (i : Nat)
    (h12 : 12 ≤ c.length) (hi : c.length - 12 ≤ i) (hi2 : i < c.length) :
    (broadcastCol start c).getD i none = c.getD i none := by
  unfold broadcastCol
  rw [broadcast_fold_getD start c (List.range 12) c rfl i,
    if_pos ⟨List.mem_range.mpr (Nat.mod_lt _ (by norm_num)), hi2⟩]
  unfold trechoVal
  congr 1
  unfold trechoIdx
  omega

/-- The rolling window ending at the last row reads the same cells from the
broadcast column as from the original column. -/
theorem window12_broadcast_eq (start : Nat) (c : List Val) (h12 : 12 ≤ c.length) :
    window12 (broadcastCol start c) (c.length - 1) = window12 c (c.length - 1) := by
  unfold window12
  apply List.map_congr_left
  intro t ht
  have ht12 : t < 12 := List.mem_range.mp ht
  exact broadcastCol_getD_last12 start c _ h12 (by omega) (by omega)

/-- Expansion of the shifted sum of squares used for the variance identity. -/
theorem sum_sq_shift (l : List ℚ) (c : ℚ) :
    (l.map (fun x => (12 * x - c) ^ 2)).sum =
      144 * (l.map (fun a => a * a)).sum - 24 * c * l.sum + l.length * c ^ 2 := by
  induction l with
  | nil => simp
  | cons x xs ih =>
    simp only [List.map_cons, List.sum_cons, List.length_cons, ih]
    push_cast
    ring

/-- A sum of nonnegative terms containing a positive member is positive. -/
theorem sum_pos_of_mem (l : List ℚ) (h0 : ∀ x ∈ l, 0 ≤ x) :
    ∀ x ∈ l, 0 < x → 0 < l.sum := by
  induction l with
  | nil => intro x hx; simp at hx
  | cons y ys ih =>
    intro x hx hxpos
    rw [List.sum_cons]
    rcases List.mem_cons.mp hx with rfl | hx
    · have : 0 ≤ ys.sum := List.sum_nonneg fun z hz => h0 z (List.mem_cons_of_mem _ hz)
      linarith
    · have h0' : ∀ z ∈ ys, 0 ≤ z := fun z hz => h0 z (List.mem_cons_of_mem _ hz)
      have := ih h0' x hx hxpos
      have hy : 0 ≤ y := h0 y (List.mem_cons_self _ _)
      linarith

/-- The (scaled) variance of a 12-sample is strictly positive as soon as two
members differ. -/
theorem dx_pos (xs : List ℚ) (h12 : xs.length = 12) (a b : ℚ)
    (ha : a ∈ xs) (hb : b ∈ xs) (hab : a ≠ b) :
    0 < 12 * (xs.map (fun v => v * v)).sum - xs.sum * xs.sum := by
  have hkey : (xs.map (fun x => (12 * x - xs.sum) ^ 2)).sum =
      12 * (12 * (xs.map (fun v => v * v)).sum - xs.sum * xs.sum) := by
    rw [sum_sq_shift, h12]
    push_cast
    ring
  have hne : 12 * a - xs.sum ≠ 0 ∨ 12 * b - xs.sum ≠ 0 := by
    by_contra hc
    push_neg at hc
    apply hab
    have h1 : 12 * a = xs.sum := by linarith [hc.1]
    have h2 : 12 * b = xs.sum := by linarith [hc.2]
    have : (12 : ℚ) * a = 12 * b := by rw [h1, h2]
    linarith
  have hpos : 0 < (xs.map (fun x => (12 * x - xs.sum) ^ 2)).sum := by
    have h0 : ∀ y ∈ xs.map (fun x => (12 * x - xs.sum) ^ 2), 0 ≤ y := by
      intro y hy
      obtain ⟨x, _, rfl⟩ := List.mem_map.mp hy
      exact sq_nonneg _
    rcases hne with hne | hne
    · exact sum_pos_of_mem _ h0 _ (List.mem_map.mpr ⟨a, ha, rfl⟩)
        (pow_two_pos_of_ne_zero hne)
    · exact sum_pos_of_mem _ h0 _ (List.mem_map.mpr ⟨b, hb, rfl⟩)
        (pow_two_pos_of_ne_zero hne)
  nlinarith [hkey, hpos]

/-- Pairing a sample with itself multiplies elementwise into squares. -/
theorem zipWith_mul_self (xs : List ℚ) :
    xs.zipWith (· * ·) xs = xs.map (fun a => a * a) := by
  induction xs with
  | nil => rfl
  | cons x xs ih => simp [List.zipWith, ih]

/-- The stored correlation of a positive-variance sample with itself is
exactly `1`. -/
theorem corrOf_self (xs : List ℚ)
    (hdx : 0 < 12 * (xs.map (fun v => v * v)).sum - xs.sum * xs.sum) :
    corrOf xs xs = some 1 := by
  unfold corrOf
  rw [zipWith_mul_self]
  have hne : (12 * (xs.map (fun a => a * a)).sum - xs.sum * xs.sum) *
      (12 * (xs.map (fun a => a * a)).sum - xs.sum * xs.sum) ≠ 0 :=
    ne_of_gt (mul_pos hdx hdx)
  rw [if_neg hne]
  congr 1
  rw [abs_of_pos hdx]
  field_simp

/-- `allVals` succeeds exactly on fully present windows. -/
theorem allVals_map_some (qs : List ℚ) : allVals (qs.map some) = some qs := by
  induction qs with
  | nil => rfl
  | cons q qs ih => simp [allVals, ih]

/-- The length of a rolling window is 12. -/
theorem window12_length (c : List Val) (e : Nat) : (window12 c e).length = 12 := by
  unfold window12
  rw [List.length_map, List.length_range]

/-- The reference column resolved through `getD` is a genuine column of a
well-formed frame, so it has `nrows` cells. -/
theorem col_length_of_wf (df : DF) (j : Nat) (hwf : df.Wf) (hj : j < df.cols.length) :
    (df.cols.getD j []).length = df.nrows := by
  rw [List.getD_eq_getElem?_getD, List.getElem?_eq_getElem hj]
  exact hwf _ (List.getElem_mem hj)

/-- The correlation-table entry of the reference window itself: exactly `1`
whenever the window is fully observed and not constant. -/
theorem corrAt_ref_one (df : DF) (j : Nat) (hwf : df.Wf) (hj : j < df.cols.length)
    (h24 : 24 ≤ df.nrows) (qs : List ℚ)
    (hq : window12 (df.cols.getD j []) (df.nrows - 1) = qs.map some)
    (a b : ℚ) (ha : a ∈ qs) (hb : b ∈ qs) (hab : a ≠ b) :
    corrAt df j (df.nrows - 1) = some 1 := by
  have hclen : (df.cols.getD j []).length = df.nrows := col_length_of_wf df j hwf hj
  have hqs12 : qs.length = 12 := by
    have := window12_length (df.cols.getD j []) (df.nrows - 1)
    rw [hq, List.length_map] at this
    exact this
  unfold corrAt corrWin
  rw [if_neg (by omega)]
  have hwin : window12 (broadcastCol df.start (df.cols.getD j [])) (df.nrows - 1) =
      window12 (df.cols.getD j []) (df.nrows - 1) := by
    have := window12_broadcast_eq df.start (df.cols.getD j []) (by omega)
    rwa [hclen] at this
  rw [hwin, hq, allVals_map_some]
  exact corrOf_self qs (dx_pos qs hqs12 a b ha hb hab)

/-- C5 (amended): the ranked candidate list is the correlation column sorted
descending with `NaN` last and ties broken by chronological order (the sort is
stable), and its rank-0 entry is the reference window itself with correlation
exactly `1.0` — provided the reference window of the reference column is fully
observed and not constant, and every other window's correlation is below `1`.
(Without those provisos rank 0 need not be the reference window: see the
counterexample with a constant series, whose correlations are all `NaN`.) -/
theorem C5_ranked_list (df : DF) (j : Nat) (hwf : df.Wf) (hj : j < df.cols.length)
    (h24 : 24 ≤ df.nrows) (qs : List ℚ)
    (hq : window12 (df.cols.getD j []) (df.nrows - 1) = qs.map some)
    (a b : ℚ) (ha : a ∈ qs) (hb : b ∈ qs) (hab : a ≠ b)
    (hlt : ∀ e ∈ corrRowIdxs df, e ≠ df.nrows - 1 →
      ∀ q, corrAt df j e = some q → q < 1) :
    List.Sorted RankLe (topCorr df j) ∧
    List.Perm (topCorr df j) ((corrRowIdxs df).map fun e => (e, corrAt df j e)) ∧
    corrAt df j (df.nrows - 1) = some 1 ∧
    (topCorr df j).head? = some (df.nrows - 1, some 1) := by
  have hone := corrAt_ref_one df j hwf hj h24 qs hq a b ha hb hab
  refine ⟨topCorr_sorted df j, topCorr_perm df j, hone, ?_⟩
  have hrefIdx : df.nrows - 1 ∈ corrRowIdxs df := by
    unfold corrRowIdxs
    rw [List.mem_filter]
    refine ⟨List.mem_range.mpr (by omega), ?_⟩
    unfold DF.finalMonth DF.lastPeriod monthOf
    rw [beq_iff_eq]
    congr 1
    omega
  have hrefMem : (df.nrows - 1, some 1) ∈ topCorr df j := by
    rw [topCorr, List.mem_insertionSort]
    exact List.mem_map.mpr ⟨df.nrows - 1, hrefIdx, by rw [hone]⟩
  cases htc : topCorr df j with
  | nil => rw [htc] at hrefMem; simp at hrefMem
  | cons hd tl =>
    have hsorted := topCorr_sorted df j
    rw [htc] at hsorted
    have hhd : ∀ y ∈ tl, RankLe hd y := (List.sorted_cons.mp hsorted).1
    have hhd_mem : hd ∈ (corrRowIdxs df).map fun e => (e, corrAt df j e) := by
      have hmem : hd ∈ topCorr df j := by rw [htc]; exact List.mem_cons_self _ _
      rw [topCorr, List.mem_insertionSort] at hmem
      exact hmem
    obtain ⟨e0, he0, hhd_eq⟩ := List.mem_map.mp hhd_mem
    by_cases hcase : e0 = df.nrows - 1
    · subst hcase
      rw [List.head?_cons, ← hhd_eq, hone]
    · have hne : hd ≠ (df.nrows - 1, some 1) := by
        intro hcontra
        exact hcase (congrArg Prod.fst (hhd_eq.trans hcontra))
      have hreftl : (df.nrows - 1, some 1) ∈ tl := by
        rw [htc] at hrefMem
        rcases List.mem_cons.mp hrefMem with h | h
        · exact absurd h.symm hne
        · exact h
      exfalso
      have hle := hhd (df.nrows - 1, some 1) hreftl
      rw [← hhd_eq] at hle
      unfold RankLe at hle
      cases hc0 : corrAt df j e0 with
      | none => rw [hc0] at hle; simp [rankLeB] at hle
      | some q =>
        rw [hc0] at hle
        have hq1 : q < 1 := hlt e0 he0 hcase q hc0
        simp only [rankLeB] at hle
        rw [if_neg (ne_of_lt hq1)] at hle
        rw [decide_eq_true_eq] at hle
        linarith

/-- C5 (counterexample to the claim as stated): on a valid constant 24-month
series every rolling correlation is `NaN`, so rank 0 of the ranked list is the
earliest window with correlation `NaN` — not the reference window with
correlation `1.0`. -/
theorem C5_counterexample :
    24 ≤ df5.nrows ∧
    (topCorr df5 0).head? = some (11, (none : Option ℚ)) ∧
    ((11, (none : Option ℚ)) : Nat × Option ℚ) ≠ (df5.nrows - 1, some 1) := by
  decide!

/-- Witness for C5's amended claim on the concrete non-constant frame. -/
theorem C5_witness :
    List.Sorted RankLe (topCorr dfA 0) ∧
    List.Perm (topCorr dfA 0) ((corrRowIdxs dfA).map fun e => (e, corrAt dfA 0 e)) ∧
    corrAt dfA 0 (dfA.nrows - 1) = some 1 ∧
    (topCorr dfA 0).head? = some (dfA.nrows - 1, some 1) :=
  C5_ranked_list dfA 0 (by unfold DF.Wf; decide!) (by decide!) (by decide!)
    [1, 2, 3, 4, 5, 6, 7, 8, 9, 10, 11, 13] (by decide!)
    1 2 (by decide!) (by decide!) (by decide!)
    (by
      intro e he hne q hq
      have hidx : corrRowIdxs dfA = [11, 23] := by decide!
      rw [hidx] at he
      have he' : e = 11 ∨ e = 23 := by simpa using he
      rcases he' with rfl | rfl
      · have hval : corrAt dfA 0 11 = some (2187 / 2197 : ℚ) := by decide!
        rw [hval] at hq
        injection hq with hq
        rw [← hq]
        norm_num
      · exact absurd (by decide! : (23 : Nat) = dfA.nrows - 1) hne)

end VV
